import Mathlib

/-!
Verification of the code-index-mcp management layer.

This file gives a shallow embedding, in Lean 4, of the pure logic of the
`indexer` package of the repository (the result shaper of
`(*IndexManager).Search`, the option normalization, line truncation,
the directory-walk skip policy, the metadata/artifact store operations of
`IndexDirectory` / `DeleteIndex`, and the web-server supervisor's `Stop`),
and proves or refutes the frozen specification claims about them.

Go strings are modelled as `List Char` (one entry per byte of the Go
string; all inputs of interest are ASCII), Go byte slices as `List Nat`,
and Go `int` as `Int` where sign matters and `Nat` where values are
counts known non-negative.  Filesystem effects are modelled by explicit
state passing over a small store type; the external zoekt engine is
modelled only through the shape of its results and an abstract
build-success flag.
-/

namespace CodeIndex

/-- Go strings, byte by byte. -/
abbrev GoStr := List Char

/-- The character data of a Lean string literal, used to embed Go string
literals. -/
def lit (s : String) : GoStr := s.data

/-! ## Line truncation (`truncateLine`, indexer.go lines 328-337) -/

/-- Embeds `truncateLine`: shortens a line to `maxLen`, adding an ellipsis
if truncated.  Go's `len(s)` and slicing are byte-based; here the string is
its byte (character) list.  `maxLen` is a natural number: the only caller
passes `opts.MaxLineLength` after normalization to a positive value. -/
def truncateLine (s : GoStr) (maxLen : Nat) : GoStr :=
  if s.length ≤ maxLen then s
  else if maxLen ≤ 3 then s.take maxLen
  else s.take (maxLen - 3) ++ lit "..."

theorem truncateLine_length (s : GoStr) (maxLen : Nat) :
    (truncateLine s maxLen).length = min s.length maxLen := by
  unfold truncateLine
  split
  · omega
  · split
    · simp only [List.length_take]
      omega
    · have hl : (lit "...").length = 3 := rfl
      simp only [List.length_append, List.length_take, hl]
      omega

/-! ## Search options (indexer.go lines 158-195)

`SearchOptions` carries Go `int` fields; `Search` overwrites each
non-positive field with its documented default before any use.  The
normalized options are represented with `Nat` fields, which is exact
because every field is positive after normalization. -/

/-- Embeds the `SearchOptions` struct (caller-supplied, Go `int` fields). -/
structure SearchOptions where
  maxFiles : Int
  maxLinesPerFile : Int
  maxLineLength : Int
  filesOnly : Bool

/-- Normalized options: all limits positive, represented as `Nat`. -/
structure NormOptions where
  maxFiles : Nat
  maxLinesPerFile : Nat
  maxLineLength : Nat
  filesOnly : Bool

/-- Embeds the defaults-normalization prologue of `Search` (lines 186-195):
each field that is `<= 0` is replaced by its default (20 / 3 / 200). -/
def normalizeOpts (o : SearchOptions) : NormOptions where
  maxFiles := if o.maxFiles ≤ 0 then 20 else o.maxFiles.toNat
  maxLinesPerFile := if o.maxLinesPerFile ≤ 0 then 3 else o.maxLinesPerFile.toNat
  maxLineLength := if o.maxLineLength ≤ 0 then 200 else o.maxLineLength.toNat
  filesOnly := o.filesOnly

/-! ## Raw engine results (the shape consumed by `Search`) -/

/-- A discrete line match as reported by the engine (`zoekt.LineMatch`):
the matched line's bytes and its line number. -/
structure LineMatch where
  line : GoStr
  lineNumber : Int

/-- A chunk match as reported by the engine (`zoekt.ChunkMatch`): a
contiguous content block and the line number of its first line. -/
structure ChunkMatch where
  content : GoStr
  contentStartLineNumber : Int

/-- A per-file match as reported by the engine (`zoekt.FileMatch`). -/
structure FileMatch where
  repository : GoStr
  fileName : GoStr
  lineMatches : List LineMatch
  chunkMatches : List ChunkMatch

/-- Embeds the `SearchResult` struct (indexer.go lines 176-181). -/
structure SearchResult where
  totalFiles : Nat
  totalMatches : Nat
  lines : List GoStr
deriving DecidableEq

/-! ## String helpers used by the shaper -/

/-- Embeds `strings.TrimRight(s, cutset)`: removes trailing characters
that occur in `cutset`. -/
def trimRightSet (s : GoStr) (cutset : GoStr) : GoStr :=
  (s.reverse.dropWhile (fun c => cutset.contains c)).reverse

/-- Whether a character is Go whitespace (the ASCII cases of
`unicode.IsSpace`, which cover all inputs of interest). -/
def isSpaceChar (c : Char) : Bool :=
  c == ' ' || c == '\t' || c == '\n' || c == '\u000b' || c == '\u000c' || c == '\r'

/-- Embeds the test `strings.TrimSpace(line) == ""`: the line contains
only whitespace. -/
def isBlankLine (s : GoStr) : Bool := s.all isSpaceChar

/-- Embeds `strings.Split(s, "\n")`: split on newlines; the empty string
splits into one empty piece. -/
def splitOnNL (s : GoStr) : List GoStr :=
  match s with
  | [] => [[]]
  | c :: rest =>
    let tail := splitOnNL rest
    if c == '\n' then [] :: tail
    else match tail with
      | [] => [[c]]
      | t :: ts => (c :: t) :: ts

/-- Embeds `strings.Count(s, "\n")`: the number of newline characters. -/
def countNL (s : GoStr) : Nat := s.countP (fun c => c == '\n')

theorem splitOnNL_length (s : GoStr) : (splitOnNL s).length = countNL s + 1 := by
  induction s with
  | nil => rfl
  | cons c rest ih =>
    simp only [splitOnNL, countNL] at *
    by_cases h : c = '\n'
    · simp [h, List.countP_cons, ih]
    · have hne : (c == '\n') = false := by simp [h]
      simp only [hne, if_neg, Bool.false_eq_true, not_false_eq_true, List.countP_cons, hne]
      cases htail : splitOnNL rest with
      | nil => rw [htail] at ih; simp at ih
      | cons t ts => rw [htail] at ih; simp at ih ⊢; omega

/-! ## The result shaper (`(*IndexManager).Search`, indexer.go lines 235-325)

The engine call itself (`searcher.Search`) is external; the shaper below
embeds everything `Search` does with the raw engine result: path
resolution through the metadata mapping, the per-file loops with their
`filesProcessed` / `linesAdded` counters and `TotalMatches` accounting,
the per-file overflow marker, and the final truncation summary. -/

/-- The metadata registry as loaded by `loadAllMetadata`: an association
of repository identifier to the recorded `source_dir`. -/
abbrev MetaMap := List (GoStr × GoStr)

/-- Association lookup, embedding Go's `metadata[fileMatch.Repository]`. -/
def metaLookup (k : GoStr) (mm : MetaMap) : Option GoStr :=
  match mm with
  | [] => none
  | p :: rest => if p.1 == k then some p.2 else metaLookup k rest

/-- Embeds lines 251-260 of `Search`: resolve the full path of a file
match by joining the recorded source directory (when the repository is
known to the metadata store) with the engine-relative file name. -/
def resolveFullPath (mm : MetaMap) (fm : FileMatch) : GoStr :=
  let baseDir := (metaLookup fm.repository mm).getD []
  if baseDir == [] then fm.fileName else baseDir ++ '/' :: fm.fileName

/-- Renders one discrete line match: `fmt.Sprintf("%s:%d: %s", ...)` with
the line content newline/carriage-return-trimmed and truncated. -/
def renderLineMatch (fullPath : GoStr) (maxLineLength : Nat) (lm : LineMatch) : GoStr :=
  fullPath ++ ':' :: (toString lm.lineNumber).data ++ ':' :: ' ' ::
    truncateLine (trimRightSet lm.line (lit "\n\r")) maxLineLength

/-- Renders one chunk-derived line: same format, content
carriage-return-trimmed and truncated. -/
def renderChunkLine (fullPath : GoStr) (maxLineLength : Nat) (lineNum : Int) (line : GoStr) : GoStr :=
  fullPath ++ ':' :: (toString lineNum).data ++ ':' :: ' ' ::
    truncateLine (trimRightSet line (lit "\r")) maxLineLength

/-- Embeds the `LineMatches` loop (lines 267-281): every match increments
`TotalMatches`; a match is rendered only while `linesAdded` is below
`maxLinesPerFile`.  Returns the `TotalMatches` increment and the emitted
lines. -/
def lineMatchLoop (fullPath : GoStr) (maxLinesPerFile maxLineLength : Nat)
    (linesAdded : Nat) : List LineMatch → Nat × List GoStr
  | [] => (0, [])
  | lm :: rest =>
    if maxLinesPerFile ≤ linesAdded then
      let r := lineMatchLoop fullPath maxLinesPerFile maxLineLength linesAdded rest
      (r.1 + 1, r.2)
    else
      let r := lineMatchLoop fullPath maxLinesPerFile maxLineLength (linesAdded + 1) rest
      (r.1 + 1, renderLineMatch fullPath maxLineLength lm :: r.2)

/-- Embeds the inner loop over one chunk's newline-split lines (lines
286-302): blank lines are skipped entirely; non-blank lines increment
`TotalMatches` and are rendered while `linesAdded` allows, with the line
number derived from the chunk start plus the split index `i`.  Returns
the match-count increment, the updated `linesAdded`, and emitted lines. -/
def chunkLinesLoop (fullPath : GoStr) (maxLinesPerFile maxLineLength : Nat)
    (startLine : Int) (i : Nat) (linesAdded : Nat) : List GoStr → Nat × Nat × List GoStr
  | [] => (0, linesAdded, [])
  | l :: rest =>
    if isBlankLine l then
      chunkLinesLoop fullPath maxLinesPerFile maxLineLength startLine (i + 1) linesAdded rest
    else if maxLinesPerFile ≤ linesAdded then
      let r := chunkLinesLoop fullPath maxLinesPerFile maxLineLength startLine (i + 1) linesAdded rest
      (r.1 + 1, r.2.1, r.2.2)
    else
      let r := chunkLinesLoop fullPath maxLinesPerFile maxLineLength startLine (i + 1) (linesAdded + 1) rest
      (r.1 + 1, r.2.1, renderChunkLine fullPath maxLineLength (startLine + i) l :: r.2.2)

/-- Embeds the `ChunkMatches` loop (lines 285-303), threading `linesAdded`
across chunks. -/
def chunkLoop (fullPath : GoStr) (maxLinesPerFile maxLineLength : Nat)
    (linesAdded : Nat) : List ChunkMatch → Nat × List GoStr
  | [] => (0, [])
  | ch :: rest =>
    let r := chunkLinesLoop fullPath maxLinesPerFile maxLineLength
      ch.contentStartLineNumber 0 linesAdded (splitOnNL ch.content)
    let r2 := chunkLoop fullPath maxLinesPerFile maxLineLength r.2.1 rest
    (r.1 + r2.1, r.2.2 ++ r2.2)

/-- Embeds lines 307-312: the count the overflow marker is based on —
`len(LineMatches)`, or, when that is zero, the sum over chunks of
`strings.Count(content, "\n") + 1`. -/
def totalInFile (fm : FileMatch) : Nat :=
  if fm.lineMatches.length = 0 then
    (fm.chunkMatches.map (fun ch => countNL ch.content + 1)).sum
  else fm.lineMatches.length

/-- The per-file overflow marker
`fmt.Sprintf("  ... and %d more matches in this file", n)`. -/
def moreMatchesLine (n : Nat) : GoStr :=
  lit "  ... and " ++ (toString n).data ++ lit " more matches in this file"

/-- Embeds the body of the per-file loop of `Search` (lines 250-316) for
one file match: path resolution, the files-only short-circuit, both match
loops, and the overflow marker.  Returns this file's `TotalMatches`
increment and its output lines. -/
def processFileMatch (mm : MetaMap) (o : NormOptions) (fm : FileMatch) : Nat × List GoStr :=
  let fullPath := resolveFullPath mm fm
  if o.filesOnly then (0, [fullPath])
  else
    let rl := lineMatchLoop fullPath o.maxLinesPerFile o.maxLineLength 0 fm.lineMatches
    let rc := if fm.lineMatches.length = 0 then
        chunkLoop fullPath o.maxLinesPerFile o.maxLineLength 0 fm.chunkMatches
      else (0, [])
    let marker := if o.maxLinesPerFile < totalInFile fm then
        [moreMatchesLine (totalInFile fm - o.maxLinesPerFile)]
      else []
    (rl.1 + rc.1, rl.2 ++ rc.2 ++ marker)

/-- Embeds the outer loop of `Search` (lines 244-317): stop (break) once
`filesProcessed` reaches `maxFiles`; otherwise process the file and
accumulate. -/
def searchLoop (mm : MetaMap) (o : NormOptions) (filesProcessed : Nat) :
    List FileMatch → Nat × List GoStr
  | [] => (0, [])
  | fm :: rest =>
    if o.maxFiles ≤ filesProcessed then (0, [])
    else
      let r := processFileMatch mm o fm
      let r2 := searchLoop mm o (filesProcessed + 1) rest
      (r.1 + r2.1, r.2 ++ r2.2)

/-- The final truncation summary
`fmt.Sprintf("\n[Showing %d of %d files. Use max_files to see more]", shown, total)`. -/
def showingLine (shown total : Nat) : GoStr :=
  lit "\n[Showing " ++ (toString shown).data ++ lit " of " ++ (toString total).data ++
    lit " files. Use max_files to see more]"

/-- Embeds the result-shaping portion of `(*IndexManager).Search` (lines
186-325) applied to a raw engine result `files`: normalize the options,
set `TotalFiles` to the raw file count, run the per-file loop, and append
the truncation summary when the total exceeds `maxFiles`. -/
def searchShape (mm : MetaMap) (opts : SearchOptions) (files : List FileMatch) : SearchResult :=
  let o := normalizeOpts opts
  let total := files.length
  let r := searchLoop mm o 0 files
  { totalFiles := total
    totalMatches := r.1
    lines := if o.maxFiles < total then r.2 ++ [showingLine o.maxFiles total] else r.2 }

/-! ## Characterization of the shaper loops

The loops are re-expressed in closed form: the line-match loop counts every
match and renders a `take`-truncated portion; the chunk loops count the
non-blank newline-split lines and render a `take`-truncated portion of them,
with line numbers offset from each chunk's start. -/

theorem lineMatchLoop_eq (p : GoStr) (maxL len la : Nat) (ms : List LineMatch) :
    lineMatchLoop p maxL len la ms =
      (ms.length, (ms.take (maxL - la)).map (renderLineMatch p len)) := by
  induction ms generalizing la with
  | nil => simp [lineMatchLoop]
  | cons lm rest ih =>
    simp only [lineMatchLoop]
    by_cases h : maxL ≤ la
    · have h0 : maxL - la = 0 := by omega
      simp [h, ih, h0]
    · have h1 : maxL - la = (maxL - (la + 1)) + 1 := by omega
      simp only [if_neg h, ih (la + 1), h1, List.take_succ_cons, List.map_cons,
        List.length_cons]

/-- The non-blank newline-split lines of a chunk, each paired with its
derived line number (chunk start plus split index). -/
def nonblankAnnot (startLine : Int) (i : Nat) : List GoStr → List (Int × GoStr)
  | [] => []
  | l :: rest =>
    if isBlankLine l then nonblankAnnot startLine (i + 1) rest
    else (startLine + i, l) :: nonblankAnnot startLine (i + 1) rest

theorem chunkLinesLoop_eq (p : GoStr) (maxL len : Nat) (s : Int) (ls : List GoStr)
    (i la : Nat) :
    chunkLinesLoop p maxL len s i la ls =
      ((nonblankAnnot s i ls).length,
       la + min (nonblankAnnot s i ls).length (maxL - la),
       ((nonblankAnnot s i ls).take (maxL - la)).map
         (fun q => renderChunkLine p len q.1 q.2)) := by
  induction ls generalizing i la with
  | nil => simp [chunkLinesLoop, nonblankAnnot]
  | cons l rest ih =>
    simp only [chunkLinesLoop, nonblankAnnot]
    by_cases hb : isBlankLine l
    · simp [hb, ih]
    · simp only [hb, Bool.false_eq_true, if_false]
      by_cases h : maxL ≤ la
      · have h0 : maxL - la = 0 := by omega
        simp [h, ih, h0]
      · have h1 : maxL - la = (maxL - (la + 1)) + 1 := by omega
        simp only [if_neg h, ih (i + 1) (la + 1), h1, List.take_succ_cons,
          List.map_cons, List.length_cons, Prod.mk.injEq]
        refine ⟨trivial, by omega, trivial⟩

/-- All non-blank annotated lines across a file's chunk matches, in order. -/
def allChunkAnnot (chunks : List ChunkMatch) : List (Int × GoStr) :=
  (chunks.map (fun ch =>
    nonblankAnnot ch.contentStartLineNumber 0 (splitOnNL ch.content))).flatten

theorem chunkLoop_eq (p : GoStr) (maxL len : Nat) (chunks : List ChunkMatch)
    (la : Nat) :
    chunkLoop p maxL len la chunks =
      ((allChunkAnnot chunks).length,
       ((allChunkAnnot chunks).take (maxL - la)).map
         (fun q => renderChunkLine p len q.1 q.2)) := by
  induction chunks generalizing la with
  | nil => simp [chunkLoop, allChunkAnnot]
  | cons ch rest ih =>
    simp only [chunkLoop, chunkLinesLoop_eq, ih, allChunkAnnot, List.map_cons,
      List.flatten_cons, List.length_append]
    set A := nonblankAnnot ch.contentStartLineNumber 0 (splitOnNL ch.content) with hA
    set B := (rest.map (fun ch =>
      nonblankAnnot ch.contentStartLineNumber 0 (splitOnNL ch.content))).flatten with hB
    have hsub : maxL - (la + min A.length (maxL - la)) = (maxL - la) - A.length := by
      omega
    rw [hsub, List.take_append_eq_append_take, List.map_append]

/-- The uncapped per-file match count actually accumulated into
`TotalMatches`: the number of discrete line matches, or, when there are
none, the number of non-blank newline-split chunk lines. -/
def trueMatchCount (fm : FileMatch) : Nat :=
  if fm.lineMatches.length = 0 then (allChunkAnnot fm.chunkMatches).length
  else fm.lineMatches.length

/-- Closed form of the per-file output lines of the shaper. -/
def specFileLines (mm : MetaMap) (o : NormOptions) (fm : FileMatch) : List GoStr :=
  let p := resolveFullPath mm fm
  if o.filesOnly then [p]
  else
    (if fm.lineMatches.length = 0 then
      ((allChunkAnnot fm.chunkMatches).take o.maxLinesPerFile).map
        (fun q => renderChunkLine p o.maxLineLength q.1 q.2)
    else (fm.lineMatches.take o.maxLinesPerFile).map
      (renderLineMatch p o.maxLineLength)) ++
    (if o.maxLinesPerFile < totalInFile fm then
      [moreMatchesLine (totalInFile fm - o.maxLinesPerFile)]
    else [])

theorem processFileMatch_eq (mm : MetaMap) (o : NormOptions) (fm : FileMatch) :
    processFileMatch mm o fm =
      ((if o.filesOnly then 0 else trueMatchCount fm), specFileLines mm o fm) := by
  unfold processFileMatch specFileLines trueMatchCount
  by_cases hf : o.filesOnly
  · simp [hf]
  · simp only [hf, Bool.false_eq_true, if_false]
    by_cases hl : fm.lineMatches.length = 0
    · have hnil : fm.lineMatches = [] := List.length_eq_zero.mp hl
      simp [hl, hnil, lineMatchLoop_eq, chunkLoop_eq]
    · simp [hl, lineMatchLoop_eq, chunkLoop_eq]

theorem searchLoop_eq (mm : MetaMap) (o : NormOptions) (k : Nat)
    (files : List FileMatch) :
    searchLoop mm o k files =
      (((files.take (o.maxFiles - k)).map
          (fun fm => (processFileMatch mm o fm).1)).sum,
       ((files.take (o.maxFiles - k)).map
          (fun fm => (processFileMatch mm o fm).2)).flatten) := by
  induction files generalizing k with
  | nil => simp [searchLoop]
  | cons fm rest ih =>
    simp only [searchLoop]
    by_cases h : o.maxFiles ≤ k
    · have h0 : o.maxFiles - k = 0 := by omega
      simp [h, h0]
    · have h1 : o.maxFiles - k = (o.maxFiles - (k + 1)) + 1 := by omega
      simp only [if_neg h, ih (k + 1), h1, List.take_succ_cons, List.map_cons,
        List.sum_cons, List.flatten_cons]

theorem searchShape_eq (mm : MetaMap) (opts : SearchOptions)
    (files : List FileMatch) :
    searchShape mm opts files =
      { totalFiles := files.length
        totalMatches := ((files.take (normalizeOpts opts).maxFiles).map
          (fun fm => if (normalizeOpts opts).filesOnly then 0
                     else trueMatchCount fm)).sum
        lines :=
          ((files.take (normalizeOpts opts).maxFiles).map
            (specFileLines mm (normalizeOpts opts))).flatten ++
          (if (normalizeOpts opts).maxFiles < files.length then
            [showingLine (normalizeOpts opts).maxFiles files.length]
          else []) } := by
  by_cases h : (normalizeOpts opts).maxFiles < files.length
  · simp [searchShape, searchLoop_eq, processFileMatch_eq, h]
  · simp [searchShape, searchLoop_eq, processFileMatch_eq, h]

/-! ## Claim C1: result totals -/

/-- A synthetic engine file match with 10 discrete line matches, as in the
spec's result-truncation test. -/
def fmTenMatches : FileMatch where
  repository := lit "r"
  fileName := lit "f.go"
  lineMatches := (List.range 10).map (fun i => { line := lit "hit", lineNumber := (i : Int) + 1 })
  chunkMatches := []

/-- The options of the spec's result-truncation test:
`max_files=2, max_lines_per_file=3`. -/
def optsFivebyTen : SearchOptions where
  maxFiles := 2
  maxLinesPerFile := 3
  maxLineLength := 200
  filesOnly := false

/-- Claim C1 is false as stated: on the synthetic result of 5 files with
10 matches each and `max_files=2`, `Search` reports `TotalFiles = 5` but
`TotalMatches = 20`, not 50 — the outer loop breaks at `MaxFiles` files
before the `TotalMatches` accounting, so matches in files beyond the file
cap are never counted. -/
theorem c1_totals_counterexample :
    (searchShape [] optsFivebyTen (List.replicate 5 fmTenMatches)).totalFiles = 5 ∧
    (searchShape [] optsFivebyTen (List.replicate 5 fmTenMatches)).totalMatches = 20 ∧
    (20 : Nat) ≠ 50 := by
  refine ⟨by decide, by decide, by decide⟩

/-- Claim C1, amended: for every raw engine result, `TotalFiles` equals the
total number of matching files, and `TotalMatches` equals the line-match
count before any per-file display truncation, summed over only the first
`MaxFiles` files of the result (matches in files beyond the file cap are
not counted, so the synthetic 5-files-by-10-matches example with
`max_files=2` yields `TotalFiles = 5` and `TotalMatches = 20`). -/
theorem c1_totals_amended (mm : MetaMap) (opts : SearchOptions)
    (files : List FileMatch) :
    (searchShape mm opts files).totalFiles = files.length ∧
    (searchShape mm opts files).totalMatches =
      ((files.take (normalizeOpts opts).maxFiles).map
        (fun fm => if (normalizeOpts opts).filesOnly then 0
                   else trueMatchCount fm)).sum := by
  rw [searchShape_eq]
  exact ⟨rfl, rfl⟩

/-! ## Claim C5: line truncation -/

/-- Claim C5, confirmed: renders of length at most `m` pass through
unchanged; longer content with `m > 3` is cut to its first `m - 3`
characters plus a 3-character ellipsis, for exactly `m` characters total;
longer content with `m ≤ 3` is hard-cut to `m` characters with no
ellipsis. -/
theorem c5_truncateLine (s : GoStr) (m : Nat) :
    (s.length ≤ m → truncateLine s m = s) ∧
    (m < s.length → 3 < m →
      truncateLine s m = s.take (m - 3) ++ lit "..." ∧
      (truncateLine s m).length = m) ∧
    (m < s.length → m ≤ 3 → truncateLine s m = s.take m) := by
  refine ⟨fun h => ?_, fun h h3 => ⟨?_, ?_⟩, fun h h3 => ?_⟩
  · simp [truncateLine, h]
  · have h1 : ¬ s.length ≤ m := by omega
    have h2 : ¬ m ≤ 3 := by omega
    simp [truncateLine, h1, h2]
  · rw [truncateLine_length]; omega
  · have h1 : ¬ s.length ≤ m := by omega
    simp [truncateLine, h1, h3]

/-- Witness for C5 at the spec's concrete instance: a 250-character line
with `maxLineLength = 200` renders as its first 197 characters plus the
ellipsis, 200 characters in all. -/
theorem c5_truncateLine_witness :
    truncateLine (List.replicate 250 'a') 200 =
      List.replicate 197 'a' ++ lit "..." ∧
    (truncateLine (List.replicate 250 'a') 200).length = 200 := by
  have h := (c5_truncateLine (List.replicate 250 'a') 200).2.1
    (by rw [List.length_replicate]; omega) (by norm_num)
  refine ⟨?_, h.2⟩
  have hmin : (200 - 3) ⊓ 250 = 197 := by norm_num
  rw [h.1, List.take_replicate, hmin]

/-! ## Claim C8: option normalization -/

/-- Claim C8, confirmed: `Search` replaces every non-positive option with
its documented default (`MaxFiles` 20, `MaxLinesPerFile` 3,
`MaxLineLength` 200) before any use, keeps positive values, and the
normalized limits are always positive. -/
theorem c8_normalizeOpts (o : SearchOptions) :
    (o.maxFiles ≤ 0 → (normalizeOpts o).maxFiles = 20) ∧
    (0 < o.maxFiles → ((normalizeOpts o).maxFiles : Int) = o.maxFiles) ∧
    (o.maxLinesPerFile ≤ 0 → (normalizeOpts o).maxLinesPerFile = 3) ∧
    (0 < o.maxLinesPerFile →
      ((normalizeOpts o).maxLinesPerFile : Int) = o.maxLinesPerFile) ∧
    (o.maxLineLength ≤ 0 → (normalizeOpts o).maxLineLength = 200) ∧
    (0 < o.maxLineLength →
      ((normalizeOpts o).maxLineLength : Int) = o.maxLineLength) ∧
    0 < (normalizeOpts o).maxFiles ∧
    0 < (normalizeOpts o).maxLinesPerFile ∧
    0 < (normalizeOpts o).maxLineLength ∧
    (normalizeOpts o).filesOnly = o.filesOnly := by
  unfold normalizeOpts
  refine ⟨fun h => by simp [h], fun h => ?_, fun h => by simp [h], fun h => ?_,
    fun h => by simp [h], fun h => ?_, ?_, ?_, ?_, rfl⟩ <;>
    simp only <;> split <;> omega

/-- Witness for C8 at a concrete input: all three limits non-positive are
replaced by the defaults 20 / 3 / 200. -/
theorem c8_normalizeOpts_witness :
    (normalizeOpts ⟨0, -1, -200, true⟩).maxFiles = 20 ∧
    (normalizeOpts ⟨0, -1, -200, true⟩).maxLinesPerFile = 3 ∧
    (normalizeOpts ⟨0, -1, -200, true⟩).maxLineLength = 200 := by
  have h := c8_normalizeOpts ⟨0, -1, -200, true⟩
  exact ⟨h.1 (by norm_num), h.2.2.1 (by norm_num), h.2.2.2.2.1 (by norm_num)⟩

/-! ## Claim C6: per-file match accounting and the overflow marker -/

/-- A file match whose matches are derived from one content chunk
containing a blank middle line: `"a\n\nb"` splits into the lines
`a`, `` (blank) and `b`, of which only `a` and `b` are matches. -/
def fmBlankChunk : FileMatch where
  repository := lit "r"
  fileName := lit "g.go"
  lineMatches := []
  chunkMatches := [{ content := lit "a\n\nb", contentStartLineNumber := 7 }]

/-- Claim C6 is false as stated: for the chunk-derived file above with
`maxLinesPerFile = 1`, the true (uncapped, blank-skipping) match count is
2, so the claim requires the marker `... and 1 more matches in this
file`; the code instead bases the marker on the newline count plus one
(3, counting the blank line) and emits `... and 2 more matches in this
file`. -/
theorem c6_marker_counterexample :
    (processFileMatch [] ⟨20, 1, 200, false⟩ fmBlankChunk).1 = 2 ∧
    (processFileMatch [] ⟨20, 1, 200, false⟩ fmBlankChunk).2.contains
      (moreMatchesLine 2) = true ∧
    (processFileMatch [] ⟨20, 1, 200, false⟩ fmBlankChunk).2.contains
      (moreMatchesLine 1) = false := by
  refine ⟨by decide, by decide, by decide⟩

/-- Claim C6, amended: in a non-files-only search the per-file count
accumulated into `TotalMatches` is tracked uncapped and separately from
the emitted lines — it equals the number of discrete line matches, or the
number of non-blank newline-split chunk lines when line matches are
absent — and exactly one summary line `... and N more matches in this
file` is appended whenever the code's reported in-file total exceeds
`maxLinesPerFile`, with `N` equal to that reported total minus
`maxLinesPerFile`; for line-match files the reported total is the true
match count, but for chunk-derived files it is the sum over chunks of the
newline count plus one, which also counts blank-derived lines that are
never matched. -/
theorem c6_marker_amended (mm : MetaMap) (o : NormOptions) (fm : FileMatch)
    (hf : o.filesOnly = false) :
    (processFileMatch mm o fm).1 = trueMatchCount fm ∧
    (processFileMatch mm o fm).2 =
      (if fm.lineMatches.length = 0 then
        ((allChunkAnnot fm.chunkMatches).take o.maxLinesPerFile).map
          (fun q => renderChunkLine (resolveFullPath mm fm) o.maxLineLength q.1 q.2)
      else (fm.lineMatches.take o.maxLinesPerFile).map
        (renderLineMatch (resolveFullPath mm fm) o.maxLineLength)) ++
      (if o.maxLinesPerFile < totalInFile fm then
        [moreMatchesLine (totalInFile fm - o.maxLinesPerFile)]
      else []) := by
  rw [processFileMatch_eq]
  refine ⟨by simp [hf], ?_⟩
  simp [specFileLines, hf]

/-- Witness for C6 (amended) at a concrete input: for the blank-chunk file
with `maxLinesPerFile = 1` the accumulated count is the true count 2 and
the emitted lines are the first rendered match followed by the marker
derived from the newline-based total 3. -/
theorem c6_marker_amended_witness :
    (processFileMatch [] ⟨20, 1, 200, false⟩ fmBlankChunk).1 =
      trueMatchCount fmBlankChunk ∧
    (processFileMatch [] ⟨20, 1, 200, false⟩ fmBlankChunk).2 =
      ((allChunkAnnot fmBlankChunk.chunkMatches).take 1).map
        (fun q => renderChunkLine (resolveFullPath [] fmBlankChunk) 200 q.1 q.2) ++
      [moreMatchesLine (totalInFile fmBlankChunk - 1)] := by
  have h := c6_marker_amended [] ⟨20, 1, 200, false⟩ fmBlankChunk rfl
  refine ⟨h.1, ?_⟩
  rw [h.2]
  norm_num [fmBlankChunk, totalInFile, countNL, lit]

/-! ## Claim C9: files-only mode -/

/-- Claim C9, confirmed: a files-only search reports `TotalMatches = 0`
regardless of the engine's line or chunk matches, and its output is
exactly one line (the resolved path) per processed file — the first
`MaxFiles` files — followed only by the global truncation summary when
more files matched; no per-file overflow markers appear. -/
theorem c9_filesOnly (mm : MetaMap) (opts : SearchOptions)
    (files : List FileMatch) (hf : opts.filesOnly = true) :
    (searchShape mm opts files).totalMatches = 0 ∧
    (searchShape mm opts files).lines =
      (files.take (normalizeOpts opts).maxFiles).map (resolveFullPath mm) ++
      (if (normalizeOpts opts).maxFiles < files.length then
        [showingLine (normalizeOpts opts).maxFiles files.length]
      else []) := by
  have hfo : (normalizeOpts opts).filesOnly = true := hf
  rw [searchShape_eq]
  refine ⟨by simp [hfo], ?_⟩
  simp only [specFileLines, hfo, if_true]
  induction (files.take (normalizeOpts opts).maxFiles) with
  | nil => simp
  | cons fm rest ih =>
    simp only [List.map_cons, List.flatten_cons, List.append_assoc] at ih ⊢
    simp [specFileLines, hfo, ih]

/-- Witness for C9 at a concrete input: two files-only results render as
exactly their two resolved paths, with `TotalMatches = 0`. -/
theorem c9_filesOnly_witness :
    (searchShape [] ⟨20, 3, 200, true⟩ [fmTenMatches, fmBlankChunk]).totalMatches = 0 ∧
    (searchShape [] ⟨20, 3, 200, true⟩ [fmTenMatches, fmBlankChunk]).lines =
      [lit "f.go", lit "g.go"] := by
  have h := c9_filesOnly [] ⟨20, 3, 200, true⟩ [fmTenMatches, fmBlankChunk] rfl
  refine ⟨h.1, ?_⟩
  rw [h.2]
  decide

/-! ## The metadata/artifact store (`IndexDirectory` / `DeleteIndex`)

The persistent state touched by `IndexDirectory`, `DeleteIndex` and the
metadata helpers (part_001 lines 44-156 and 360-439) is the index storage
root: a directory holding the engine's `.zoekt` artifact files plus
`metadata.json`.  It is modelled as `Option DirState`: `none` when the
root does not exist, otherwise the artifact file names plus the parsed
metadata file (`none` when `metadata.json` is absent; a corrupt file also
loads as the empty mapping and is not modelled separately).  `os.Remove`
of a listed entry and `os.WriteFile` into an existing directory are
assumed to succeed; `os.WriteFile` into a missing directory fails, and
`os.ReadDir` of a missing directory fails with not-exist. -/

/-- State of an existing index storage root: the names of the regular
files the engine wrote (artifacts), and the parsed metadata file. -/
structure DirState where
  artifacts : List GoStr
  metaFile : Option MetaMap
deriving DecidableEq

/-- The index storage root: `none` when the directory does not exist. -/
abbrev Store := Option DirState

/-- Errors surfaced by the store operations. -/
inductive OpErr where
  | ioFailure
  | buildFailed
deriving DecidableEq

/-- The `.zoekt` artifact-name test of `deleteIndexFiles` (lines 430-436):
a regular file is removed when its name carries the identifier as a
prefix and the `.zoekt` suffix. -/
def matchesArtifact (ident name : GoStr) : Bool :=
  ident.isPrefixOf name && (lit ".zoekt").isSuffixOf name

/-- Embeds `deleteIndexFiles` (lines 419-439): a missing root reads as
not-exist and is treated as success with no change; otherwise every
regular file matching the identifier is removed. -/
def deleteIndexFilesSt (ident : GoStr) (st : Store) : Store :=
  match st with
  | none => none
  | some d => some { d with artifacts := d.artifacts.filter (fun n => !(matchesArtifact ident n)) }

/-- Embeds `loadAllMetadata` (lines 389-402): a missing root or missing
(or unparsable) metadata file loads as the empty mapping. -/
def loadAllMetadataSt (st : Store) : MetaMap :=
  match st with
  | none => []
  | some d => d.metaFile.getD []

/-- Embeds `saveAllMetadata` (lines 404-410): rewrites `metadata.json`
whole; writing into a missing root fails with an I/O error and changes
nothing. -/
def saveAllMetadataSt (mm : MetaMap) (st : Store) : Store × Option OpErr :=
  match st with
  | none => (none, some .ioFailure)
  | some d => (some { d with metaFile := some mm }, none)

/-- Go map upsert `metadata[prefix] = &indexMetadata{...}` on the
association-list representation. -/
def metaUpsert (k v : GoStr) (mm : MetaMap) : MetaMap :=
  (k, v) :: mm.filter (fun p => p.1 != k)

/-- Go map `delete(metadata, prefix)` on the association-list
representation. -/
def metaRemove (k : GoStr) (mm : MetaMap) : MetaMap :=
  mm.filter (fun p => p.1 != k)

/-- Embeds `saveIndexMetadata` (lines 412-417): load, upsert the record
for this identifier, write the whole file back. -/
def saveIndexMetadataSt (ident sourceDir : GoStr) (st : Store) : Store × Option OpErr :=
  saveAllMetadataSt (metaUpsert ident sourceDir (loadAllMetadataSt st)) st

/-- Embeds `os.MkdirAll(m.indexDir, 0755)`: creates the root when absent,
leaves it untouched when present. -/
def mkdirAllSt (st : Store) : Store :=
  some (st.getD { artifacts := [], metaFile := none })

/-- Modelled from the spec: the name of the artifact file the external
engine builder writes for one identifier.  The builder (`index.NewBuilder`
/ `builder.Finish`) is not part of this repository; per the spec's data
model, on-disk artifacts are "named using the IndexIdentifier as a
filename prefix" and carry the `.zoekt` extension, so one representative
shard name is used. -/
def artifactFileName (ident : GoStr) : GoStr :=
  ident ++ lit "_v16.00000.zoekt"

/-- Adds the artifact written by a successful engine build. -/
def addArtifact (name : GoStr) (st : Store) : Store :=
  match st with
  | none => none
  | some d => some { d with artifacts := name :: d.artifacts }

/-- Embeds the filesystem-effect skeleton of `IndexDirectory` (lines
45-156) for an existing source directory with identifier `ident`: ensure
the root exists, delete the identifier's pre-existing artifacts, run the
external engine build (its success is the input `buildOk`; on success it
leaves the new artifact, on failure nothing), and only on success commit
the metadata record.  On build failure the operation errors out after the
old artifacts were already removed, leaving the metadata untouched. -/
def indexDirectorySt (ident sourceDir : GoStr) (buildOk : Bool) (st : Store) :
    Store × Option OpErr :=
  let st1 := deleteIndexFilesSt ident (mkdirAllSt st)
  if buildOk then saveIndexMetadataSt ident sourceDir (addArtifact (artifactFileName ident) st1)
  else (st1, some .buildFailed)

/-- Embeds `DeleteIndex` (lines 361-378): delete the identifier's
artifact files, then load the metadata, drop the record and rewrite the
file. -/
def deleteIndexSt (ident : GoStr) (st : Store) : Store × Option OpErr :=
  let st1 := deleteIndexFilesSt ident st
  saveAllMetadataSt (metaRemove ident (loadAllMetadataSt st1)) st1

/-- The artifact names present in the store. -/
def artifactsOf (st : Store) : List GoStr :=
  match st with
  | none => []
  | some d => d.artifacts

/-- Whether the record for `ident` points at some existing artifact: a
regular file whose name carries the identifier prefix and the `.zoekt`
suffix. -/
def recordHasArtifact (st : Store) (ident : GoStr) : Bool :=
  (artifactsOf st).any (fun n => matchesArtifact ident n)

/-- The invariant of claim C2: every `IndexRecord` in the metadata store
points to an existing index artifact for its identifier. -/
def storeInvariant (st : Store) : Bool :=
  (loadAllMetadataSt st).all (fun p => recordHasArtifact st p.1)

/-- The operations a caller can run against one store: (re-)indexing a
directory (with the external build's outcome) and deleting an index. -/
inductive StoreOp where
  | indexDir (ident sourceDir : GoStr) (buildOk : Bool)
  | deleteIdx (ident : GoStr)

/-- The store state after one operation (errors are reported to the
caller but the on-disk state is whatever the operation left behind). -/
def applyOp (st : Store) : StoreOp → Store
  | .indexDir i d ok => (indexDirectorySt i d ok st).1
  | .deleteIdx i => (deleteIndexSt i st).1

/-- Whether identifier `k` would still have an artifact after the
prefix-based artifact deletion for identifier `t`. -/
def survivesDeletion (st : Store) (t k : GoStr) : Bool :=
  (artifactsOf st).any (fun n => matchesArtifact k n && !(matchesArtifact t n))

/-- The safety guard under which one operation preserves the record
invariant: every record keyed differently from the operated identifier
must keep some artifact through the prefix-based deletion, and a failing
build must not target an identifier that currently has a record. -/
def safeOp (st : Store) : StoreOp → Bool
  | .indexDir t _ ok =>
    ((loadAllMetadataSt st).all (fun p => p.1 == t || survivesDeletion st t p.1)) &&
    (ok || (loadAllMetadataSt st).all (fun p => p.1 != t))
  | .deleteIdx t =>
    (loadAllMetadataSt st).all (fun p => p.1 == t || survivesDeletion st t p.1)

theorem survivesDeletion_spec {st : Store} {t k : GoStr}
    (h : survivesDeletion st t k = true) :
    ∃ n ∈ artifactsOf st, matchesArtifact k n = true ∧ matchesArtifact t n = false := by
  simp only [survivesDeletion, List.any_eq_true, Bool.and_eq_true,
    Bool.not_eq_true'] at h
  obtain ⟨n, hn, h1, h2⟩ := h
  exact ⟨n, hn, h1, h2⟩

theorem matchesArtifact_artifactFileName (t : GoStr) :
    matchesArtifact t (artifactFileName t) = true := by
  have hsplit : lit "_v16.00000.zoekt" = lit "_v16.00000" ++ lit ".zoekt" := by decide
  simp only [matchesArtifact, artifactFileName, Bool.and_eq_true,
    List.isPrefixOf_iff_prefix, List.isSuffixOf_iff_suffix]
  refine ⟨List.prefix_append _ _, ?_⟩
  rw [hsplit, ← List.append_assoc]
  exact List.suffix_append _ _


theorem mem_filter_artifacts {t n : GoStr} {arts : List GoStr}
    (hn : n ∈ arts) (h2 : matchesArtifact t n = false) :
    n ∈ arts.filter (fun m => !(matchesArtifact t m)) :=
  List.mem_filter.mpr ⟨hn, by simp [h2]⟩

/-- Under the safety guard, one store operation preserves the record
invariant. -/
theorem safeOp_preserves_storeInvariant (st : Store) (op : StoreOp)
    (hsafe : safeOp st op = true) :
    storeInvariant (applyOp st op) = true := by
  cases op with
  | deleteIdx t =>
    cases st with
    | none => rfl
    | some d =>
      have hsafe' : ∀ p ∈ d.metaFile.getD [],
          (p.1 == t || survivesDeletion (some d) t p.1) = true := by
        simpa [safeOp, loadAllMetadataSt, List.all_eq_true] using hsafe
      simp only [applyOp, deleteIndexSt, deleteIndexFilesSt, loadAllMetadataSt,
        saveAllMetadataSt, storeInvariant, Option.getD_some, List.all_eq_true,
        metaRemove]
      intro p hp
      have hpmem : p ∈ d.metaFile.getD [] := List.mem_of_mem_filter hp
      have hpne : p.1 ≠ t := by simpa using (List.mem_filter.mp hp).2
      have hor : p.1 = t ∨ survivesDeletion (some d) t p.1 = true := by
        simpa using hsafe' p hpmem
      have hsurv := hor.resolve_left hpne
      obtain ⟨n, hn, h1, h2⟩ := survivesDeletion_spec hsurv
      simp only [recordHasArtifact, artifactsOf, List.any_eq_true]
      exact ⟨n, mem_filter_artifacts hn h2, h1⟩
  | indexDir t dir ok =>
    cases ok with
    | false =>
      have hsafe' : ((loadAllMetadataSt st).all
            (fun p => p.1 == t || survivesDeletion st t p.1) = true) ∧
          ((loadAllMetadataSt st).all (fun p => p.1 != t) = true) := by
        simpa [safeOp] using hsafe
      cases st with
      | none => rfl
      | some d =>
        have h1 := List.all_eq_true.mp hsafe'.1
        have h2 := List.all_eq_true.mp hsafe'.2
        simp only [loadAllMetadataSt] at h1 h2
        simp only [applyOp, indexDirectorySt, mkdirAllSt, Option.getD_some,
          deleteIndexFilesSt, Bool.false_eq_true, if_false, storeInvariant,
          loadAllMetadataSt, List.all_eq_true]
        intro p hp
        have hne : p.1 ≠ t := by simpa using h2 p hp
        have hor : p.1 = t ∨ survivesDeletion (some d) t p.1 = true := by
          simpa using h1 p hp
        have hsurv := hor.resolve_left hne
        obtain ⟨n, hn, hm1, hm2⟩ := survivesDeletion_spec hsurv
        simp only [recordHasArtifact, artifactsOf, List.any_eq_true]
        exact ⟨n, mem_filter_artifacts hn hm2, hm1⟩
    | true =>
      have hsafe' : (loadAllMetadataSt st).all
          (fun p => p.1 == t || survivesDeletion st t p.1) = true := by
        simpa [safeOp] using hsafe
      cases st with
      | none =>
        simp only [applyOp, indexDirectorySt, mkdirAllSt, Option.getD_none,
          deleteIndexFilesSt, List.filter_nil, addArtifact, saveIndexMetadataSt,
          loadAllMetadataSt, saveAllMetadataSt, if_true, storeInvariant,
          Option.getD_some, Option.getD_none, metaUpsert, List.filter_nil,
          List.all_eq_true]
        intro p hp
        have hp' : p = (t, dir) := by simpa using hp
        subst hp'
        simp only [recordHasArtifact, artifactsOf, List.any_eq_true]
        exact ⟨artifactFileName t, by simp, matchesArtifact_artifactFileName t⟩
      | some d =>
        have h1 := List.all_eq_true.mp hsafe'
        simp only [loadAllMetadataSt] at h1
        simp only [applyOp, indexDirectorySt, mkdirAllSt, Option.getD_some,
          deleteIndexFilesSt, addArtifact, saveIndexMetadataSt,
          loadAllMetadataSt, saveAllMetadataSt, if_true, storeInvariant,
          Option.getD_some, metaUpsert, List.all_eq_true]
        intro p hp
        simp only [recordHasArtifact, artifactsOf, List.any_eq_true]
        rcases List.mem_cons.mp hp with hp' | hp'
        · subst hp'
          exact ⟨artifactFileName t, List.mem_cons_self _ _,
            matchesArtifact_artifactFileName t⟩
        · have hpmem : p ∈ d.metaFile.getD [] := List.mem_of_mem_filter hp'
          have hpne : p.1 ≠ t := by simpa using (List.mem_filter.mp hp').2
          have hor : p.1 = t ∨ survivesDeletion (some d) t p.1 = true := by
            simpa using h1 p hpmem
          have hsurv := hor.resolve_left hpne
          obtain ⟨n, hn, hm1, hm2⟩ := survivesDeletion_spec hsurv
          exact ⟨n, List.mem_cons_of_mem _ (mem_filter_artifacts hn hm2), hm1⟩

/-- Running a sequence of store operations. -/
def runOps (st : Store) (ops : List StoreOp) : Store := ops.foldl applyOp st

/-- A sequence of operations in which every step satisfies the safety
guard in the state where it runs. -/
def safeTrace (st : Store) : List StoreOp → Bool
  | [] => true
  | op :: rest => safeOp st op && safeTrace (applyOp st op) rest

theorem safeTrace_invariant (ops : List StoreOp) :
    ∀ st, storeInvariant st = true → safeTrace st ops = true →
      storeInvariant (runOps st ops) = true := by
  induction ops with
  | nil => intro st h _; simpa [runOps] using h
  | cons op rest ih =>
    intro st _ htr
    have htr' : safeOp st op = true ∧ safeTrace (applyOp st op) rest = true := by
      simpa [safeTrace] using htr
    have hstep := safeOp_preserves_storeInvariant st op htr'.1
    simpa [runOps] using ih (applyOp st op) hstep htr'.2

/-- A sample identifier for the C2 trace (base name plus 8-byte hash hex,
as produced by `getIndexPrefix`). -/
def identProj : GoStr := lit "proj_0011223344556677"

/-- Claim C2 is false as stated: starting from an empty store, a
successful `indexDirectory` establishes the invariant, but a re-index of
the same directory whose engine build fails first deletes the old
artifacts (line 67) and then errors out before the metadata commit,
leaving the old `IndexRecord` pointing at artifacts that no longer
exist. -/
theorem c2_record_invariant_counterexample :
    storeInvariant (indexDirectorySt identProj (lit "/w/proj") true none).1 = true ∧
    (indexDirectorySt identProj (lit "/w/proj") false
      (indexDirectorySt identProj (lit "/w/proj") true none).1).2 =
      some OpErr.buildFailed ∧
    storeInvariant (indexDirectorySt identProj (lit "/w/proj") false
      (indexDirectorySt identProj (lit "/w/proj") true none).1).1 = false := by
  refine ⟨by decide, by decide, by decide⟩

/-- Claim C2, amended: after every sequence of `indexDirectory` and
`deleteIndex` operations from an empty store in which (a) an
`indexDirectory` whose engine build fails never targets an identifier
that currently has a metadata record, and (b) no operation's prefix-based
artifact deletion removes the last artifact of a differently-keyed
record, every `IndexRecord` in the metadata store points to an existing
index artifact for its identifier: the record is committed only after the
engine confirms the build.  Without restriction (a) the invariant fails:
a failing re-index of an already indexed directory removes the old
artifacts before the build and leaves the stale record behind (the
counterexample). -/
theorem c2_record_invariant_amended (ops : List StoreOp)
    (h : safeTrace none ops = true) :
    storeInvariant (runOps none ops) = true :=
  safeTrace_invariant ops none rfl h

/-- Witness for C2 (amended) on a concrete guarded trace: index, re-index
successfully, delete, then a failing index of the now-unrecorded
identifier; the invariant holds at the end. -/
theorem c2_record_invariant_amended_witness :
    safeTrace none
      [StoreOp.indexDir identProj (lit "/w/proj") true,
       StoreOp.indexDir identProj (lit "/w/proj") true,
       StoreOp.deleteIdx identProj,
       StoreOp.indexDir identProj (lit "/w/proj") false] = true ∧
    storeInvariant (runOps none
      [StoreOp.indexDir identProj (lit "/w/proj") true,
       StoreOp.indexDir identProj (lit "/w/proj") true,
       StoreOp.deleteIdx identProj,
       StoreOp.indexDir identProj (lit "/w/proj") false]) = true :=
  ⟨by decide, c2_record_invariant_amended _ (by decide)⟩

/-! ## Claim C4: idempotent delete -/

/-- Claim C4 is false as stated: when the index storage root does not
exist yet, `DeleteIndex` of an unindexed directory does not succeed — the
artifact scan treats the missing directory as empty, but the final
`saveAllMetadata` write of `metadata.json` into the missing directory
fails, so the call returns an I/O error (while indeed changing nothing). -/
theorem c4_idempotent_delete_counterexample :
    deleteIndexSt identProj none = (none, some OpErr.ioFailure) ∧
    some OpErr.ioFailure ≠ (none : Option OpErr) := by
  refine ⟨by decide, by decide⟩

/-- Claim C4, amended: for a directory that has no index — no metadata
record and no matching artifact — `deleteIndex` succeeds and leaves the
store unchanged, provided the index storage root exists and the metadata
file is present (the unchanged mapping is rewritten in place).  When the
storage root does not exist, the call instead fails with an I/O error
from the final metadata write, still leaving all state unchanged; when
the root exists but `metadata.json` is absent, the call succeeds but
creates `metadata.json` holding the empty mapping. -/
theorem c4_idempotent_delete_amended (d : DirState) (mm : MetaMap) (t : GoStr)
    (hmeta : d.metaFile = some mm)
    (hnorec : ∀ p ∈ mm, p.1 ≠ t)
    (hnoart : ∀ n ∈ d.artifacts, matchesArtifact t n = false) :
    deleteIndexSt t (some d) = (some d, none) := by
  have hart : d.artifacts.filter (fun n => !(matchesArtifact t n)) = d.artifacts :=
    List.filter_eq_self.mpr (fun n hn => by simp [hnoart n hn])
  have hmm : metaRemove t mm = mm :=
    List.filter_eq_self.mpr (fun p hp => by simpa using hnorec p hp)
  simp only [deleteIndexSt, deleteIndexFilesSt, hart, loadAllMetadataSt,
    saveAllMetadataSt, hmeta, Option.getD_some, hmm]
  cases d with
  | mk arts mf =>
    simp only [DirState.mk.injEq] at hmeta ⊢
    simp [← hmeta]

/-- Witness for C4 (amended) at a concrete store: deleting the unindexed
`identProj` from a root that holds one other index leaves the store
exactly as it was, with no error. -/
theorem c4_idempotent_delete_amended_witness :
    deleteIndexSt identProj
      (some { artifacts := [lit "other_8899aabbccddeeff_v16.00000.zoekt"],
              metaFile := some [(lit "other_8899aabbccddeeff", lit "/y/other")] }) =
      (some { artifacts := [lit "other_8899aabbccddeeff_v16.00000.zoekt"],
              metaFile := some [(lit "other_8899aabbccddeeff", lit "/y/other")] },
       none) := by
  exact c4_idempotent_delete_amended _ _ _ rfl (by decide) (by decide)

/-! ## Claim C10: the artifact-cleanup frame

`deleteIndexFiles` (part_001 lines 419-439) walks the entries of the
index storage directory and calls `os.Remove` on exactly those entries
that are not directories, carry the identifier prefix, and end in
`.zoekt`.  Here the directory listing is modelled entry by entry
(including `metadata.json` and subdirectories), and `getIndexPrefix`
(lines 35-42) is modelled with the hash digest hex passed in, since
`crypto/sha256` is an external library: for distinct source paths the
16-hex-character digests are distinct with overwhelming probability, but
nothing makes one full identifier incapable of being a prefix of
another. -/

/-- One entry of the index storage directory, as seen by `os.ReadDir`. -/
structure DirEntry where
  name : GoStr
  isDir : Bool
deriving DecidableEq

/-- The removal test of `deleteIndexFiles`:
`!entry.IsDir() && strings.HasPrefix(name, prefix) && strings.HasSuffix(name, ".zoekt")`. -/
def removesEntry (ident : GoStr) (e : DirEntry) : Bool :=
  !e.isDir && matchesArtifact ident e.name

/-- The net effect of `deleteIndexFiles` on the directory listing: every
entry passing the removal test is removed, everything else stays. -/
def deleteIndexFilesEntries (ident : GoStr) (es : List DirEntry) : List DirEntry :=
  es.filter (fun e => !(removesEntry ident e))

/-- Embeds `getIndexPrefix` (lines 35-42) given the hex digest of the
first 8 bytes of the sha256 of the absolute source path: the sanitized
base name (spaces replaced by underscores), an underscore, and the
digest hex. -/
def getIndexPfx (baseName hashHex : GoStr) : GoStr :=
  baseName.map (fun c => if c == ' ' then '_' else c) ++ '_' :: hashHex

/-- Claim C10 is false in its frame part: the cleanup step for the
directory `/x/a` (identifier `a_0123456789abcdef`) also removes the
artifact of the distinct identifier `a_0123456789abcdef_00112233aabbccdd`
— the identifier of a directory whose base name is literally
`a_0123456789abcdef` — because that artifact's name carries the first
identifier as a prefix and ends in `.zoekt`. -/
theorem c10_cleanup_frame_counterexample :
    getIndexPfx (lit "a_0123456789abcdef") (lit "00112233aabbccdd") ≠
      getIndexPfx (lit "a") (lit "0123456789abcdef") ∧
    removesEntry (getIndexPfx (lit "a") (lit "0123456789abcdef"))
      { name := artifactFileName
          (getIndexPfx (lit "a_0123456789abcdef") (lit "00112233aabbccdd")),
        isDir := false } = true ∧
    deleteIndexFilesEntries (getIndexPfx (lit "a") (lit "0123456789abcdef"))
      [{ name := artifactFileName
           (getIndexPfx (lit "a_0123456789abcdef") (lit "00112233aabbccdd")),
         isDir := false }] = [] := by
  refine ⟨by decide, by decide, by decide⟩

/-- Claim C10, amended: the artifact-cleanup step of `deleteIndex(p)`
removes exactly the regular files whose name both starts with p's
identifier prefix and ends with `.zoekt`; the metadata file
`metadata.json` and subdirectories are always left unchanged, and an
index artifact of another identifier is left unchanged provided its name
does not itself begin with p's identifier — which can fail when the other
directory's base name starts with p's full identifier (the
counterexample). -/
theorem c10_cleanup_frame_amended (ident : GoStr) (es : List DirEntry) :
    (∀ e, e ∈ deleteIndexFilesEntries ident es ↔
      e ∈ es ∧ removesEntry ident e = false) ∧
    (∀ e ∈ es, e.isDir = true → e ∈ deleteIndexFilesEntries ident es) ∧
    (∀ e ∈ es, e.name = lit "metadata.json" →
      e ∈ deleteIndexFilesEntries ident es) ∧
    (∀ q, ∀ e ∈ es, e.name = artifactFileName q →
      ident.isPrefixOf e.name = false →
      e ∈ deleteIndexFilesEntries ident es) := by
  refine ⟨fun e => ?_, fun e he hd => ?_, fun e he hn => ?_, fun q e he hn hp => ?_⟩
  · simp [deleteIndexFilesEntries, List.mem_filter]
  · exact List.mem_filter.mpr ⟨he, by simp [removesEntry, hd]⟩
  · refine List.mem_filter.mpr ⟨he, ?_⟩
    have hsfx : (lit ".zoekt").isSuffixOf e.name = false := by
      rw [hn]; decide
    simp [removesEntry, matchesArtifact, hsfx]
  · exact List.mem_filter.mpr ⟨he, by simp [removesEntry, matchesArtifact, hp]⟩

/-- Witness for C10 (amended) at a concrete listing: cleaning up for
`a_0123456789abcdef` removes that identifier's shard and keeps
`metadata.json`, a subdirectory, and the artifact of an unrelated
identifier. -/
theorem c10_cleanup_frame_amended_witness :
    ({ name := lit "metadata.json", isDir := false } : DirEntry) ∈
      deleteIndexFilesEntries (getIndexPfx (lit "a") (lit "0123456789abcdef"))
        [{ name := lit "metadata.json", isDir := false },
         { name := lit "sub", isDir := true },
         { name := artifactFileName (getIndexPfx (lit "b") (lit "8899aabbccddeeff")),
           isDir := false },
         { name := artifactFileName (getIndexPfx (lit "a") (lit "0123456789abcdef")),
           isDir := false }] ∧
    ({ name := artifactFileName (getIndexPfx (lit "b") (lit "8899aabbccddeeff")),
       isDir := false } : DirEntry) ∈
      deleteIndexFilesEntries (getIndexPfx (lit "a") (lit "0123456789abcdef"))
        [{ name := lit "metadata.json", isDir := false },
         { name := lit "sub", isDir := true },
         { name := artifactFileName (getIndexPfx (lit "b") (lit "8899aabbccddeeff")),
           isDir := false },
         { name := artifactFileName (getIndexPfx (lit "a") (lit "0123456789abcdef")),
           isDir := false }] := by
  constructor
  · exact (c10_cleanup_frame_amended (getIndexPfx (lit "a") (lit "0123456789abcdef"))
      _).2.2.1 _ (by decide) rfl
  · exact (c10_cleanup_frame_amended (getIndexPfx (lit "a") (lit "0123456789abcdef"))
      _).2.2.2 (getIndexPfx (lit "b") (lit "8899aabbccddeeff")) _ (by decide) rfl
      (by decide)

/-! ## The directory ingest walk (`IndexDirectory`, part_001 lines 89-138)

The walk callback skips, in order: hidden and denylisted directories
(pruning the whole subtree via `filepath.SkipDir`), hidden files, files
with a binary extension, unreadable files, and files whose content scans
as binary; every admissible file is added as a document named by its
path relative to the walk root.  The source tree is modelled as a forest
of named nodes; file content is a byte list (`List Nat`). -/

/-- Embeds `isSkippedDir` (lines 442-461): the fixed denylist of
build/dependency/virtual-env directory names. -/
def isSkippedDir (name : GoStr) : Bool :=
  [lit "node_modules", lit "vendor", lit "__pycache__", lit "target",
   lit "build", lit "dist", lit ".git", lit ".svn", lit ".hg", lit ".idea",
   lit ".vscode", lit "venv", lit ".venv", lit "env", lit ".env"].contains name

/-- Embeds `filepath.Ext` for a base name (no separators): the suffix
from the final dot, empty when there is no dot. -/
def extOf (name : GoStr) : GoStr :=
  if name.reverse.contains '.' then
    '.' :: (name.reverse.takeWhile (fun c => c != '.')).reverse
  else []

/-- Embeds `isBinaryFile` (lines 464-481): the fixed denylist of binary
extensions, compared against the lower-cased extension. -/
def isBinaryFile (name : GoStr) : Bool :=
  [lit ".exe", lit ".dll", lit ".so", lit ".dylib",
   lit ".bin", lit ".obj", lit ".o", lit ".a",
   lit ".zip", lit ".tar", lit ".gz", lit ".bz2",
   lit ".7z", lit ".rar",
   lit ".png", lit ".jpg", lit ".jpeg", lit ".gif",
   lit ".bmp", lit ".ico", lit ".webp", lit ".svg",
   lit ".mp3", lit ".mp4", lit ".avi", lit ".mov",
   lit ".pdf", lit ".doc", lit ".docx", lit ".xls",
   lit ".xlsx", lit ".ppt", lit ".pptx",
   lit ".class", lit ".jar", lit ".war",
   lit ".pyc", lit ".pyo",
   lit ".wasm"].contains ((extOf name).map Char.toLower)

/-- Embeds `isBinaryContent` (lines 484-496): the first 8 KiB of the
content contains a null byte. -/
def isBinaryContent (content : List Nat) : Bool :=
  (content.take 8192).any (fun b => b == 0)

/-- A source tree node: a regular file with its content and readability,
or a directory with children. -/
inductive FsTree where
  | file (name : GoStr) (content : List Nat) (readable : Bool)
  | dir (name : GoStr) (children : List FsTree)

/-- A document handed to the engine builder: the path relative to the
walk root, and the file content. -/
structure IngestDoc where
  name : GoStr
  content : List Nat
deriving DecidableEq

/-- Joins a relative-path accumulator with a base name
(`filepath.Rel(absPath, path)` of the walked file). -/
def joinRel (pre name : GoStr) : GoStr :=
  if pre == [] then name else pre ++ '/' :: name

/-- Whether a base name is hidden (`strings.HasPrefix(base, ".")`). -/
def startsDot (name : GoStr) : Bool :=
  match name with
  | [] => false
  | c :: _ => c == '.'

/-- Embeds the walk of `IndexDirectory` over a forest of entries below
the (already admitted) walk root, with `pre` the relative path of the
enclosing directory: hidden or denylisted directories are pruned with
their whole subtree; hidden files, binary-extension files, unreadable
files, and binary-content files are skipped; every other file yields one
document. -/
def walkForest (pre : GoStr) : List FsTree → List IngestDoc
  | [] => []
  | .file name content readable :: rest =>
    (if startsDot name then []
     else if isBinaryFile name then []
     else if !readable then []
     else if isBinaryContent content then []
     else [{ name := joinRel pre name, content := content }]) ++
    walkForest pre rest
  | .dir name children :: rest =>
    (if startsDot name || isSkippedDir name then []
     else walkForest (joinRel pre name) children) ++
    walkForest pre rest

theorem walkForest_binary_free (pre : GoStr) (ts : List FsTree) :
    ∀ d ∈ walkForest pre ts, isBinaryContent d.content = false := by
  induction pre, ts using walkForest.induct with
  | case1 pre => simp [walkForest]
  | case2 pre name content readable rest ih =>
    intro d hd
    simp only [walkForest] at hd
    rcases List.mem_append.mp hd with h | h
    · split_ifs at h with h1 h2 h3 h4
      · simp at h
      · simp at h
      · simp at h
      · simp at h
      · have : d = { name := joinRel pre name, content := content } := by
          simpa using h
        rw [this]
        simpa using h4
    · exact ih d h
  | case3 pre name children rest ih1 ih2 =>
    intro d hd
    simp only [walkForest] at hd
    rcases List.mem_append.mp hd with h | h
    · by_cases hskip : (startsDot name || isSkippedDir name) = true
      · rw [if_pos hskip] at h
        simp at h
      · rw [if_neg hskip] at h
        exact ih1 d h
    · exact ih2 d h

/-- Claim C7, confirmed: (1) a subdirectory whose name is hidden or on
the denylist is pruned with its entire subtree, contributing nothing to
the ingested stream; (2) a file whose scanned leading 8 KiB contains a
null byte is skipped, and globally no document of the ingested stream has
binary content; (3) a plain non-hidden text file without a denylisted
extension (such as a top-level `.go`/`.py`/`.ts` file) does appear, as
one document carrying its relative path and content. -/
theorem c7_walk_skip_policy :
    (∀ pre n cs rest, (startsDot n || isSkippedDir n) = true →
      walkForest pre (FsTree.dir n cs :: rest) = walkForest pre rest) ∧
    (∀ pre n c r rest, isBinaryContent c = true →
      walkForest pre (FsTree.file n c r :: rest) = walkForest pre rest) ∧
    (∀ pre ts, ∀ d ∈ walkForest pre ts, isBinaryContent d.content = false) ∧
    (∀ pre n c rest, startsDot n = false → isBinaryFile n = false →
      isBinaryContent c = false →
      walkForest pre (FsTree.file n c true :: rest) =
        { name := joinRel pre n, content := c } :: walkForest pre rest) := by
  refine ⟨fun pre n cs rest h => ?_, fun pre n c r rest h => ?_,
    walkForest_binary_free, fun pre n c rest h1 h2 h3 => ?_⟩
  · simp [walkForest, h]
  · simp only [walkForest]
    split_ifs <;> simp_all
  · simp [walkForest, h1, h2, h3]

/-- Witness for C7 at the spec's concrete scenario: a `node_modules`
subtree and a null-byte sibling are absent from the ingested stream,
while plain `.go`/`.py`/`.ts` siblings appear. -/
theorem c7_walk_skip_policy_witness :
    walkForest []
      [FsTree.dir (lit "node_modules") [FsTree.file (lit "inside.txt") [104, 105] true],
       FsTree.file (lit "blob.dat") [0, 1, 2] true,
       FsTree.file (lit "main.go") [112] true,
       FsTree.file (lit "util.py") [113] true,
       FsTree.file (lit "types.ts") [114] true] =
      [{ name := lit "main.go", content := [112] },
       { name := lit "util.py", content := [113] },
       { name := lit "types.ts", content := [114] }] := by
  have h := c7_walk_skip_policy
  rw [h.1 [] (lit "node_modules") _ _ (by decide),
    h.2.1 [] (lit "blob.dat") [0, 1, 2] true _ (by decide),
    h.2.2.2 [] (lit "main.go") [112] _ (by decide) (by decide) (by decide),
    h.2.2.2 [] (lit "util.py") [113] _ (by decide) (by decide) (by decide),
    h.2.2.2 [] (lit "types.ts") [114] _ (by decide) (by decide) (by decide)]
  simp [walkForest, joinRel]

/-! ## The web-server supervisor (`webserver.go`)

`WebServerManager` holds the mutex-guarded fields `running`, `port` and
`server`; every operation below models the body of one method while its
lock is held (the lock itself serializes calls and is not modelled).  The
outcome of `http.Server.Shutdown` with its 5-second timeout context is
external and passed in as `shutdownOk` (`false` models a shutdown error,
including the timeout case where the context expires before in-flight
connections drain). -/

/-- The supervisor's guarded state: `running`, `port`, and whether a
server handle is held (`server != nil`). -/
structure WebState where
  running : Bool
  port : Int
  hasServer : Bool
deriving DecidableEq

/-- Errors surfaced by `Stop` (webserver.go lines 119-139). -/
inductive StopErr where
  | notRunning
  | shutdownFailed
deriving DecidableEq

/-- Embeds `Stop` (lines 119-139): error when not running; otherwise
request graceful shutdown with the bounded wait, and — only if that
returns without error — clear `running`, `server` and `port`.  When
`Shutdown` fails (e.g. the 5-second timeout expires), `Stop` returns the
wrapped error at line 131 before reaching the state-clearing statements,
leaving `running`, `port` and `server` untouched. -/
def stopServer (shutdownOk : Bool) (st : WebState) : WebState × Option StopErr :=
  if !st.running then (st, some .notRunning)
  else if !shutdownOk then (st, some .shutdownFailed)
  else ({ running := false, port := 0, hasServer := false }, none)

/-- The observable part of `Status` (lines 142-156): the running flag and
the reported port (zero when not running). -/
def statusServer (st : WebState) : Bool × Int :=
  if !st.running then (false, 0) else (true, st.port)

/-- The `AlreadyRunning` guard of `Start` (lines 46-48): a new start is
refused exactly while `running` is set. -/
def startBlocked (st : WebState) : Bool := st.running

/-- Claim C3 is false as stated: when graceful shutdown does not complete
within the bounded wait, `Stop` returns the shutdown error without
clearing anything — the running flag and port survive, a subsequent
status still reports running, and a subsequent start is still blocked. -/
theorem c3_stop_counterexample :
    stopServer false { running := true, port := 8080, hasServer := true } =
      ({ running := true, port := 8080, hasServer := true },
       some StopErr.shutdownFailed) ∧
    (stopServer false { running := true, port := 8080, hasServer := true }).1.running = true ∧
    (stopServer false { running := true, port := 8080, hasServer := true }).1.port = 8080 ∧
    startBlocked (stopServer false
      { running := true, port := 8080, hasServer := true }).1 = true := by
  refine ⟨by decide, by decide, by decide, by decide⟩

/-- Claim C3, amended: for every `Stop` call made while the server is
running, the running flag and the port are cleared only when the graceful
shutdown completes within the bounded wait; when shutdown fails (for
example on timeout), `Stop` returns the error as a failure and leaves the
state untouched, so a subsequent status still reports running and a
subsequent start remains blocked with `AlreadyRunning` until a later
`Stop` succeeds. -/
theorem c3_stop_amended (st : WebState) (shutdownOk : Bool)
    (hrun : st.running = true) :
    (shutdownOk = true →
      stopServer shutdownOk st =
        ({ running := false, port := 0, hasServer := false }, none)) ∧
    (shutdownOk = false →
      stopServer shutdownOk st = (st, some StopErr.shutdownFailed) ∧
      statusServer (stopServer shutdownOk st).1 = (true, st.port) ∧
      startBlocked (stopServer shutdownOk st).1 = true) := by
  refine ⟨fun hok => ?_, fun hko => ?_⟩
  · simp [stopServer, hrun, hok]
  · subst hko
    refine ⟨by simp [stopServer, hrun], ?_, ?_⟩
    · simp [stopServer, hrun, statusServer]
    · simp [stopServer, hrun, startBlocked]

/-- Witness for C3 (amended) at a concrete state: a successful shutdown
clears the state, and a failed shutdown leaves the running port 8080
visible to status. -/
theorem c3_stop_amended_witness :
    stopServer true { running := true, port := 8080, hasServer := true } =
      ({ running := false, port := 0, hasServer := false }, none) ∧
    statusServer (stopServer false
      { running := true, port := 8080, hasServer := true }).1 = (true, 8080) := by
  refine ⟨(c3_stop_amended { running := true, port := 8080, hasServer := true }
    true rfl).1 rfl, ?_⟩
  exact ((c3_stop_amended { running := true, port := 8080, hasServer := true }
    false rfl).2 rfl).2.1
